import Mathlib

/-!
Shallow embedding of the catalog-tree node model implemented in
src/catcli/nodes.py, together with proofs settling the specification
claims about it.

Modelling conventions:
- The kind discriminant (the type attribute, one of the six string
  constants TYPE_TOP .. TYPE_META) is embedded as the enumeration NType;
  typcast_node, which in the source assigns the subclass from the string
  discriminant, becomes a function from the discriminant string to
  Except String NType, the error case mirroring the raised
  CatcliException.
- A node carries the fields shared by all kinds and read by the
  functions under study: name, nodesize, the kind, and the optional
  _flagged attribute (Option Bool: none means the attribute is absent,
  matching the hasattr test in flagged).  Kind-specific payload fields
  (md5, maccess, free, total, ts, attr, archive) are carried by no
  function modelled here and are omitted.
- The anytree parent/children structure is embedded as the inductive
  tree NTree (a node owns the list of its children); a node of a tree is
  addressed by the list of child indices from the root, and the anytree
  ancestors tuple (root first) of the node at path p is the chain of
  nodes at the proper prefixes of p.
- Python integers are embedded as Int, strings as String, with
  os.path.join embedded by osJoin following the posix rules of the
  2-argument call used by get_fullpath.
- Methods that mutate (get_rec_size writes the computed size back into
  nodesize on Top, Dir and Storage; flag and unflag write or delete the
  _flagged attribute) are embedded as functions returning the new value
  alongside the result.
-/

/-- Kind discriminant of a node: the six TYPE constants of nodes.py. -/
inductive NType where
  | top
  | file
  | dir
  | arc
  | storage
  | meta
deriving DecidableEq, Repr

/-- Fields of a node read by the modelled methods: name, nodesize, the
kind discriminant, and the optional _flagged attribute (none when the
attribute is absent). -/
structure NData where
  name : String
  nodesize : Int
  ntype : NType
  flagattr : Option Bool
deriving DecidableEq, Repr

/-- A catalog tree: a node with its ordered list of children (the
anytree parent/children structure, viewed from the root). -/
inductive NTree where
  | mk (data : NData) (children : List NTree)

/-- Data stored at the root node of a tree. -/
def NTree.data : NTree → NData
  | .mk d _ => d

/-- Children of the root node of a tree. -/
def NTree.children : NTree → List NTree
  | .mk _ cs => cs

/-- Embedding of typcast_node: maps the string discriminant to the kind,
raising (CatcliException, embedded as Except.error) on anything outside
the six known kinds. -/
def typcast_node (ty : String) : Except String NType :=
  if ty = "top" then Except.ok NType.top
  else if ty = "file" then Except.ok NType.file
  else if ty = "dir" then Except.ok NType.dir
  else if ty = "arc" then Except.ok NType.arc
  else if ty = "storage" then Except.ok NType.storage
  else if ty = "meta" then Except.ok NType.meta
  else Except.error ("bad node: " ++ ty)

/-- Embedding of may_have_children, dispatched on the kind: the
overrides return True on NodeTop, NodeDir and NodeStorage and False on
NodeFile, NodeArchived and NodeMeta. -/
def may_have_children : NType → Bool
  | NType.top => true
  | NType.dir => true
  | NType.storage => true
  | NType.file => false
  | NType.arc => false
  | NType.meta => false

/-- Embedding of NodeAny.flagged: False when the _flagged attribute is
absent, else the stored value. -/
def flagged (d : NData) : Bool :=
  match d.flagattr with
  | none => false
  | some b => b

/-- Embedding of NodeAny.flag: sets the _flagged attribute to True. -/
def flag (d : NData) : NData :=
  { d with flagattr := some true }

/-- Embedding of NodeAny.unflag: sets _flagged to False and then deletes
the attribute, so the final state is an absent attribute. -/
def unflag (d : NData) : NData :=
  { d with flagattr := none }

/-- Embedding of the 2-argument posix os.path.join used by
get_fullpath: the second component wins when absolute, otherwise the
separator is inserted unless the first component is empty or already
ends with the separator. -/
def osJoin (a b : String) : String :=
  if b.data.head? = some '/' then b
  else if a.data = [] ∨ a.data.getLast? = some '/' then a ++ b
  else a ++ "/" ++ b

/-- Embedding of get_fullpath, applied to the chain of a node listed
from the node itself up to the root (self first, then parent,
grandparent, ...).  NodeTop.get_fullpath returns the empty string; the
NodeAny version joins the parent full path (the parent being typecast
first, hence the dispatch on the kind) with the own name, or is the own
name alone when there is no parent. -/
def get_fullpath : List NData → String
  | [] => ""
  | d :: ups =>
    if d.ntype = NType.top then ""
    else
      match ups with
      | [] => d.name
      | _ :: _ => osJoin (get_fullpath ups) d.name

mutual

/-- Embedding of get_rec_size on a subtree, returning the computed size
together with the subtree after mutation.  NodeMeta returns 0 and
touches nothing.  The NodeAny version starts the total at the own
nodesize and adds the recursive size of every child (each child being
typecast and recursively processed, in order).  The NodeTop, NodeDir and
NodeStorage overrides additionally write the total back into nodesize. -/
def get_rec_size : NTree → Int × NTree
  | .mk d cs =>
    if d.ntype = NType.meta then
      (0, .mk d cs)
    else
      let r := get_rec_size_children cs
      let tot := d.nodesize + r.1
      if d.ntype = NType.top ∨ d.ntype = NType.dir ∨ d.ntype = NType.storage then
        (tot, .mk { d with nodesize := tot } r.2)
      else
        (tot, .mk d r.2)

/-- The loop over self.children in NodeAny.get_rec_size: sum of the
recursive sizes of the children, with the mutated children. -/
def get_rec_size_children : List NTree → Int × List NTree
  | [] => (0, [])
  | c :: rest =>
    let r1 := get_rec_size c
    let r2 := get_rec_size_children rest
    (r1.1 + r2.1, r1.2 :: r2.2)

end

/-- Subtree rooted at the node addressed by a list of child indices. -/
def subtreeAt : NTree → List Nat → Option NTree
  | t, [] => some t
  | .mk _ cs, i :: p => cs[i]?.bind (fun c => subtreeAt c p)

/-- Data of the node addressed by a path. -/
def dataAt (t : NTree) (p : List Nat) : Option NData :=
  (subtreeAt t p).map NTree.data

/-- Chain of node data from the root down to (and including) the node
addressed by the path: the anytree ancestors tuple of that node followed
by the node itself. -/
def chainAt : NTree → List Nat → Option (List NData)
  | .mk d _, [] => some [d]
  | .mk d cs, i :: p =>
    cs[i]?.bind (fun c => (chainAt c p).map (fun l => d :: l))

/-- Full path of the node addressed by a path in a tree: get_fullpath
applied to the chain of the node read from the node upward. -/
def fullpathAt (t : NTree) (p : List Nat) : Option String :=
  (chainAt t p).map (fun l => get_fullpath l.reverse)

/-- Result of get_storage_node: None (absent), a found node identified
by its path from the root, or the IndexError raised by reading
self.ancestors at index 1 when fewer than two ancestors exist. -/
inductive StorageResult where
  | absent
  | found (p : List Nat)
  | err
deriving DecidableEq, Repr

/-- Embedding of get_storage_node for the node addressed by a path
(none when the path addresses no node).  NodeStorage returns itself;
NodeFile, NodeDir and NodeArchived return self.ancestors at index 1,
the node at depth 1 on the root chain, an IndexError when the node has
fewer than two ancestors; NodeTop and NodeMeta inherit the NodeAny
version returning None. -/
def get_storage_node (t : NTree) (p : List Nat) : Option StorageResult :=
  match dataAt t p with
  | none => none
  | some d =>
    match d.ntype with
    | NType.storage => some (StorageResult.found p)
    | NType.file => if 2 ≤ p.length then some (StorageResult.found (p.take 1)) else some StorageResult.err
    | NType.dir => if 2 ≤ p.length then some (StorageResult.found (p.take 1)) else some StorageResult.err
    | NType.arc => if 2 ≤ p.length then some (StorageResult.found (p.take 1)) else some StorageResult.err
    | NType.top => some StorageResult.absent
    | NType.meta => some StorageResult.absent

/-- Embedding of attaching a child under the node addressed by a path:
the child is appended to that node's children (the anytree parent
assignment; nodes.py performs no capability check on the parent's
kind).  none when the path addresses no node. -/
def attach : NTree → List Nat → NTree → Option NTree
  | .mk d cs, [], c => some (.mk d (cs ++ [c]))
  | .mk d cs, i :: p, c =>
    cs[i]?.bind (fun ci => (attach ci p c).map (fun ci2 => .mk d (cs.set i ci2)))

/-- Names joined by the path separator, the path shape named by the
specification for a node at p1/p2/.../pn. -/
def sepJoin : List String → String
  | [] => ""
  | [x] => x
  | x :: xs => x ++ "/" ++ sepJoin xs

/-- A name fit for path building: nonempty and free of the separator. -/
def sepFree (s : String) : Prop :=
  s.data ≠ [] ∧ '/' ∉ s.data

instance sepFree.instDecidable (s : String) : Decidable (sepFree s) :=
  inferInstanceAs (Decidable (s.data ≠ [] ∧ '/' ∉ s.data))

/-! Example trees: scenario 1 of the specification (a Top over a Storage
over a Dir over a 10-byte File, with every container size 0), and small
variants used to settle the claims. -/

/-- Data of the Top node of scenario 1. -/
def exTop : NData := ⟨"top", 0, NType.top, none⟩

/-- Data of the Storage node disk1 of scenario 1. -/
def exDisk1 : NData := ⟨"disk1", 0, NType.storage, none⟩

/-- Data of the Dir node docs of scenario 1. -/
def exDocs : NData := ⟨"docs", 0, NType.dir, none⟩

/-- Data of the File node a.txt of scenario 1 (size 10). -/
def exAtxt : NData := ⟨"a.txt", 10, NType.file, none⟩

/-- Scenario 1 tree: top, disk1, docs, a.txt. -/
def ex1 : NTree := .mk exTop [.mk exDisk1 [.mk exDocs [.mk exAtxt []]]]

/-- A Dir with a stale cached nodesize 5 over a single 10-byte File. -/
def exStaleDir : NTree :=
  .mk ⟨"d", 5, NType.dir, none⟩ [.mk ⟨"a", 10, NType.file, none⟩ []]

/-- A Top over a Storage over a Meta node. -/
def exMetaTree : NTree :=
  .mk exTop [.mk exDisk1 [.mk ⟨"meta", 0, NType.meta, none⟩ []]]

/-- A Top holding a Dir directly (no Storage on the chain) over a File. -/
def exNoStorage : NTree :=
  .mk exTop [.mk ⟨"d", 0, NType.dir, none⟩ [.mk ⟨"f", 3, NType.file, none⟩ []]]

/-- A Top over a single File leaf. -/
def exTopFile : NTree := .mk exTop [.mk exAtxt []]

/-! Helper lemmas on osJoin, sepJoin and get_fullpath. -/

/-- The data of the separator string. -/
theorem sep_data : ("/" : String).data = ['/'] := rfl

/-- String append is associative. -/
theorem str_append_assoc (a b c : String) : a ++ b ++ c = a ++ (b ++ c) := by
  cases a
  cases b
  cases c
  apply congrArg String.mk
  exact List.append_assoc _ _ _

/-- Joining onto the empty prefix returns the second component. -/
theorem osJoin_empty_left (b : String) : osJoin "" b = b := by
  unfold osJoin
  split
  · rfl
  · rw [if_pos (Or.inl rfl)]
    cases b
    rfl

/-- When the second component is not absolute and the first is nonempty
with no trailing separator, osJoin inserts the separator. -/
theorem osJoin_sep (a b : String) (hb : b.data.head? ≠ some '/')
    (ha : a.data ≠ []) (hl : a.data.getLast? ≠ some '/') :
    osJoin a b = a ++ "/" ++ b := by
  unfold osJoin
  rw [if_neg hb, if_neg (not_or.mpr ⟨ha, hl⟩)]

/-- A separator-free name never starts with the separator. -/
theorem sepFree_head (s : String) (h : sepFree s) : s.data.head? ≠ some '/' := by
  intro hc
  exact h.2 (List.mem_of_mem_head? (by simp [hc]))

/-- Appending one more component to a nonempty separator join. -/
theorem sepJoin_snoc : ∀ (l : List String) (x : String), l ≠ [] →
    sepJoin (l ++ [x]) = sepJoin l ++ "/" ++ x
  | [], _, h => absurd rfl h
  | [y], x, _ => by simp [sepJoin]
  | y :: z :: zs, x, _ => by
    have ih := sepJoin_snoc (z :: zs) x (by simp)
    have h1 : (y :: z :: zs) ++ [x] = y :: ((z :: zs) ++ [x]) := rfl
    have h2 : sepJoin (y :: ((z :: zs) ++ [x]))
        = y ++ "/" ++ sepJoin ((z :: zs) ++ [x]) := by
      simp [sepJoin]
    have h3 : sepJoin (y :: z :: zs) = y ++ "/" ++ sepJoin (z :: zs) := by
      simp [sepJoin]
    rw [h1, h2, ih, h3]
    simp only [str_append_assoc]

/-- A separator join of nonempty separator-free names is nonempty and
has no trailing separator. -/
theorem sepJoin_sepFree : ∀ l : List String, l ≠ [] → (∀ x ∈ l, sepFree x) →
    (sepJoin l).data ≠ [] ∧ (sepJoin l).data.getLast? ≠ some '/'
  | [], h, _ => absurd rfl h
  | [x], _, hall => by
    have hx : sepFree x := hall x (by simp)
    refine ⟨by simpa [sepJoin] using hx.1, ?_⟩
    simp only [sepJoin]
    intro hlast
    exact hx.2 (List.mem_of_mem_getLast? hlast)
  | x :: y :: ys, _, hall => by
    have ih := sepJoin_sepFree (y :: ys) (by simp) (fun z hz => hall z (by simp [hz]))
    have hdata : (sepJoin (x :: y :: ys)).data
        = x.data ++ ['/'] ++ (sepJoin (y :: ys)).data := by
      simp [sepJoin, String.data_append, sep_data]
    constructor
    · rw [hdata]
      simp
    · rw [hdata, List.getLast?_append_of_ne_nil _ ih.1]
      exact ih.2

/-- subtreeAt with the empty path is the tree itself. -/
theorem subtreeAt_nil (t : NTree) : subtreeAt t [] = some t := by
  cases t
  rfl

/-- chainAt with the empty path is the singleton root chain. -/
theorem chainAt_nil (t : NTree) : chainAt t [] = some [t.data] := by
  cases t
  rfl

/-- get_fullpath of a chain headed by a Top-kinded node is empty. -/
theorem get_fullpath_top (d : NData) (ups : List NData)
    (h : d.ntype = NType.top) : get_fullpath (d :: ups) = "" := by
  simp [get_fullpath, h]

/-- get_fullpath of a parentless non-Top node is its name. -/
theorem get_fullpath_single (d : NData) (h : d.ntype ≠ NType.top) :
    get_fullpath [d] = d.name := by
  simp [get_fullpath, h]

/-- get_fullpath of a non-Top node with a parent joins the parent full
path with the own name. -/
theorem get_fullpath_cons (d p : NData) (ups : List NData)
    (h : d.ntype ≠ NType.top) :
    get_fullpath (d :: p :: ups) = osJoin (get_fullpath (p :: ups)) d.name := by
  simp [get_fullpath, h]

/-- On a chain of non-Top nodes with separator-free names sitting on a
Top root, get_fullpath produces exactly the separator-joined names from
the root side downward (es lists the nodes from the node upward, the
Top root excluded). -/
theorem get_fullpath_sepJoin : ∀ (es : List NData) (td : NData),
    td.ntype = NType.top → es ≠ [] →
    (∀ d ∈ es, d.ntype ≠ NType.top) → (∀ d ∈ es, sepFree d.name) →
    get_fullpath (es ++ [td]) = sepJoin (es.reverse.map NData.name)
  | [], _, _, hne, _, _ => absurd rfl hne
  | [d], td, htd, _, hnt, _ => by
    have hd : d.ntype ≠ NType.top := hnt d (by simp)
    have h1 : ([d] : List NData) ++ [td] = d :: [td] := rfl
    rw [h1, get_fullpath_cons d td [] hd, get_fullpath_top td [] htd,
      osJoin_empty_left]
    simp [sepJoin]
  | d :: e :: es, td, htd, _, hnt, hsf => by
    have hd : d.ntype ≠ NType.top := hnt d (by simp)
    have ih := get_fullpath_sepJoin (e :: es) td htd (by simp)
      (fun z hz => hnt z (by simp [hz]))
      (fun z hz => hsf z (by simp [hz]))
    have h1 : (d :: e :: es) ++ [td] = d :: ((e :: es) ++ [td]) := rfl
    have h2 : (e :: es) ++ [td] = e :: (es ++ [td]) := rfl
    rw [h1, h2, get_fullpath_cons d e (es ++ [td]) hd, ← h2, ih]
    have hLne : (e :: es).reverse.map NData.name ≠ [] := by simp
    have hLsf : ∀ x ∈ (e :: es).reverse.map NData.name, sepFree x := by
      intro x hx
      simp only [List.mem_map, List.mem_reverse] at hx
      obtain ⟨z, hz, rfl⟩ := hx
      exact hsf z (by simp [hz])
    have hL := sepJoin_sepFree ((e :: es).reverse.map NData.name) hLne hLsf
    have hdn : sepFree d.name := hsf d (by simp)
    rw [osJoin_sep _ _ (sepFree_head _ hdn) hL.1 hL.2,
      ← sepJoin_snoc _ d.name hLne]
    have h3 : (d :: e :: es).reverse.map NData.name
        = (e :: es).reverse.map NData.name ++ [d.name] := by
      simp
    rw [h3]

/-- The head of a chain returned by chainAt is the root data. -/
theorem chainAt_head : ∀ (t : NTree) (p : List Nat) (l : List NData),
    chainAt t p = some l → l.head? = some t.data
  | .mk d cs, [], l, h => by
    simp [chainAt] at h
    subst h
    rfl
  | .mk d cs, i :: p, l, h => by
    simp only [chainAt] at h
    cases hget : cs[i]? with
    | none => simp [hget] at h
    | some c =>
      simp only [hget, Option.some_bind] at h
      cases hc : chainAt c p with
      | none => simp [hc] at h
      | some l2 =>
        simp only [hc] at h
        obtain rfl : d :: l2 = l := by simpa using h
        rfl

/-- Chains returned by chainAt are nonempty. -/
theorem chainAt_ne_nil (t : NTree) (p : List Nat) (l : List NData)
    (h : chainAt t p = some l) : l ≠ [] := by
  intro hl
  subst hl
  simpa using chainAt_head t p [] h

/-- Extending a path by one child index appends the child data to the
chain. -/
theorem chainAt_snoc : ∀ (t : NTree) (q : List Nat) (i : Nat) (c : NTree),
    subtreeAt t (q ++ [i]) = some c →
    ∃ l, chainAt t q = some l ∧ chainAt t (q ++ [i]) = some (l ++ [c.data])
  | .mk d cs, [], i, c, h => by
    refine ⟨[d], chainAt_nil _, ?_⟩
    simp only [List.nil_append, subtreeAt] at h
    cases hget : cs[i]? with
    | none => simp [hget] at h
    | some ci =>
      simp only [hget, Option.some_bind, subtreeAt_nil] at h
      obtain rfl : ci = c := by simpa using h
      simp [chainAt, hget, chainAt_nil]
  | .mk d cs, j :: q, i, c, h => by
    rw [List.cons_append] at h
    simp only [subtreeAt] at h
    cases hget : cs[j]? with
    | none => simp [hget] at h
    | some cj =>
      simp only [hget, Option.some_bind] at h
      obtain ⟨l, hl1, hl2⟩ := chainAt_snoc cj q i c h
      refine ⟨d :: l, ?_, ?_⟩
      · simp [chainAt, hget, hl1]
      · rw [List.cons_append]
        simp [chainAt, hget, hl2]

/-! Claim theorems. -/

/-- C1: evaluation of get_rec_size at a Dir whose cached size field is 5
above a single 10-byte File.  The code returns 15, the cached field plus
the children sum, while the sum of the children's recursive sizes is 10:
the initial value of the cached size field flows into the result,
against the claim that the result is exactly the children sum for every
initial cache value. -/
theorem c1_rec_size_includes_cache :
    (get_rec_size exStaleDir).1 = 15
    ∧ (get_rec_size_children (NTree.children exStaleDir)).1 = 10 := by
  decide

/-- C2: size refresh is not idempotent.  On the scenario-1 tree (every
container cache 0) the first get_rec_size returns 10, but the second,
run immediately after, returns 40, because each refresh adds the freshly
written caches into the sums again; the Storage cache moves from 10 to
30 between the calls. -/
theorem c2_rec_size_not_idempotent :
    (get_rec_size ex1).1 = 10
    ∧ (get_rec_size (get_rec_size ex1).2).1 = 40
    ∧ (dataAt (get_rec_size ex1).2 [0]).map NData.nodesize = some 10
    ∧ (dataAt (get_rec_size (get_rec_size ex1).2).2 [0]).map NData.nodesize
        = some 30 := by
  decide

/-- C5: typcasting each of the six known kind discriminants succeeds
with the corresponding kind; any other discriminant (such as bogus)
raises, producing an error for the caller instead of a node, and the
cast succeeds exactly on the six known discriminants. -/
theorem c5_typcast_kinds :
    typcast_node "top" = Except.ok NType.top
    ∧ typcast_node "file" = Except.ok NType.file
    ∧ typcast_node "dir" = Except.ok NType.dir
    ∧ typcast_node "arc" = Except.ok NType.arc
    ∧ typcast_node "storage" = Except.ok NType.storage
    ∧ typcast_node "meta" = Except.ok NType.meta
    ∧ typcast_node "bogus" = Except.error "bad node: bogus"
    ∧ ∀ s : String, (typcast_node s).isOk = true
        ↔ s ∈ ["top", "file", "dir", "arc", "storage", "meta"] := by
  refine ⟨rfl, rfl, rfl, rfl, rfl, rfl, rfl, ?_⟩
  intro s
  unfold typcast_node
  split_ifs with h1 h2 h3 h4 h5 h6 <;> simp_all [Except.isOk, Except.toBool]

/-- C7 counterexample: on the scenario-1 tree the full path of the file
node is disk1/docs/a.txt, not docs/a.txt as the claim states: the
Storage name is part of the full path. -/
theorem c7_fullpath_counterexample :
    fullpathAt ex1 [0, 0, 0] = some "disk1/docs/a.txt"
    ∧ ¬ fullpathAt ex1 [0, 0, 0] = some "docs/a.txt" := by
  decide

/-- C7 amended: in the scenario-1 tree the node at path top, disk1,
docs, a.txt is the file node, and its full path evaluates to
disk1/docs/a.txt. -/
theorem c7_fullpath_eval :
    dataAt ex1 [0, 0, 0] = some exAtxt
    ∧ fullpathAt ex1 [0, 0, 0] = some "disk1/docs/a.txt" := by
  decide

/-- C9: for every node in any flag state, flag makes flagged true, a
subsequent unflag makes flagged false, flagged is false on a node whose
flag attribute is absent (a never-flagged node) without failing, and
unflag on any node (never-flagged included) leaves flagged false without
failing (unflag assigns False before deleting the attribute, so the
delete always finds it). -/
theorem c9_flag_ops (d : NData) :
    flagged (flag d) = true
    ∧ flagged (unflag (flag d)) = false
    ∧ (d.flagattr = none → flagged d = false)
    ∧ flagged (unflag d) = false := by
  refine ⟨rfl, rfl, ?_, rfl⟩
  intro h
  simp [flagged, h]

/-- C9 witness: the never-flagged Top node data reads false, and reads
true right after flag. -/
theorem c9_flag_ops_witness :
    exTop.flagattr = none
    ∧ flagged exTop = false
    ∧ flagged (flag exTop) = true :=
  ⟨rfl, (c9_flag_ops exTop).2.2.1 rfl, (c9_flag_ops exTop).1⟩

/-- C10: get_storage_node on a Meta node returns absent (the inherited
NodeAny version returning None), whatever the tree, the position, the
parent, or the rest of the node data: it neither consults the parent nor
fails. -/
theorem c10_meta_storage_absent (t : NTree) (p : List Nat) (d : NData)
    (hd : dataAt t p = some d) (hm : d.ntype = NType.meta) :
    get_storage_node t p = some StorageResult.absent := by
  simp [get_storage_node, hd, hm]

/-- C10 witness: the Meta node below the storage of exMetaTree. -/
theorem c10_meta_storage_absent_witness :
    get_storage_node exMetaTree [0, 0] = some StorageResult.absent :=
  c10_meta_storage_absent exMetaTree [0, 0] ⟨"meta", 0, NType.meta, none⟩
    (by decide) rfl

/-- Attaching under an addressed node always succeeds and appends the
child to that node's children, whatever the node's kind: nodes.py runs
no capability check on the parent. -/
theorem attach_spec : ∀ (t : NTree) (p : List Nat) (c : NTree) (st : NTree),
    subtreeAt t p = some st →
    ∃ t2, attach t p c = some t2
      ∧ subtreeAt t2 p = some (NTree.mk st.data (st.children ++ [c]))
  | .mk d cs, [], c, st, h => by
    obtain rfl : NTree.mk d cs = st := by
      rw [subtreeAt_nil] at h
      exact Option.some_injective _ h
    exact ⟨.mk d (cs ++ [c]), rfl, by rw [subtreeAt_nil]; rfl⟩
  | .mk d cs, i :: p, c, st, h => by
    simp only [subtreeAt] at h
    cases hget : cs[i]? with
    | none => simp [hget] at h
    | some ci =>
      simp only [hget, Option.some_bind] at h
      obtain ⟨t2, h1, h2⟩ := attach_spec ci p c st h
      have hlt : i < cs.length := (List.getElem?_eq_some_iff.mp hget).1
      refine ⟨.mk d (cs.set i t2), ?_, ?_⟩
      · simp [attach, hget, h1]
      · simp only [subtreeAt, List.getElem?_set_self hlt, Option.some_bind]
        exact h2

/-- C4: the claimed InvalidOperation rejection does not exist.  For any
addressed node of any kind, File, Archived and Meta included (kinds on
which may_have_children is False), attaching a child succeeds and
mutates the tree: the child list of the addressed node grows by the
attached child. -/
theorem c4_attach_unchecked (t : NTree) (p : List Nat) (c : NTree) (d : NData)
    (hd : dataAt t p = some d)
    (_hleaf : may_have_children d.ntype = false) :
    may_have_children NType.file = false
    ∧ may_have_children NType.arc = false
    ∧ may_have_children NType.meta = false
    ∧ (attach t p c).isSome = true
    ∧ ((attach t p c).bind (fun t2 => subtreeAt t2 p)).map NTree.children
        = (subtreeAt t p).map (fun st => st.children ++ [c]) := by
  unfold dataAt at hd
  cases hst : subtreeAt t p with
  | none => rw [hst] at hd; exact absurd hd (by simp)
  | some st =>
    obtain ⟨t2, h1, h2⟩ := attach_spec t p c st hst
    refine ⟨rfl, rfl, rfl, by rw [h1]; rfl, ?_⟩
    rw [h1, Option.some_bind, h2]
    rfl

/-- C4 witness: attaching a Dir under the File leaf of exTopFile
succeeds and the File's child list grows from empty to the singleton. -/
theorem c4_attach_unchecked_witness :
    (attach exTopFile [0] (NTree.mk exDocs [])).isSome = true
    ∧ ((attach exTopFile [0] (NTree.mk exDocs []))).map
        (fun t2 => (subtreeAt t2 [0]).map (fun st => st.children.length))
        = some (some 1) := by
  have h := c4_attach_unchecked exTopFile [0] (NTree.mk exDocs []) exAtxt
    rfl rfl
  exact ⟨h.2.2.2.1, rfl⟩

/-- C4 counterexample: attaching a child under the File a.txt raises
nothing and changes the tree, against the claimed InvalidOperation
failure with an unchanged tree: the File's child count moves from 0 to
1. -/
theorem c4_counterexample :
    dataAt exTopFile [0] = some exAtxt
    ∧ exAtxt.ntype = NType.file
    ∧ (subtreeAt exTopFile [0]).map (fun st => st.children.length) = some 0
    ∧ ((attach exTopFile [0] (NTree.mk exDocs [])).bind
        (fun t2 => subtreeAt t2 [0])).map (fun st => st.children.length)
        = some 1 :=
  ⟨rfl, rfl, rfl, rfl⟩

/-- C3 amended: in a tree whose depth-1 ancestor of the addressed node
is a Storage node, get_storage_node on a File, Dir or Archived node at
any depth at least 2 returns exactly that Storage ancestor (the node at
the first index of the path), independent of the depth; a Storage node
returns itself; the Top root returns absent.  (A Meta node below a
Storage is excluded: it returns absent, see the counterexample.) -/
theorem c3_owner_storage (t : NTree) (p : List Nat) (d s : NData)
    (hd : dataAt t p = some d)
    (hk : d.ntype = NType.file ∨ d.ntype = NType.dir ∨ d.ntype = NType.arc)
    (hlen : 2 ≤ p.length)
    (hs : dataAt t (p.take 1) = some s)
    (hstor : s.ntype = NType.storage) :
    get_storage_node t p = some (StorageResult.found (p.take 1))
    ∧ dataAt t (p.take 1) = some s
    ∧ s.ntype = NType.storage
    ∧ (∀ q dq, dataAt t q = some dq → dq.ntype = NType.storage →
        get_storage_node t q = some (StorageResult.found q))
    ∧ (t.data.ntype = NType.top →
        get_storage_node t [] = some StorageResult.absent) := by
  refine ⟨?_, hs, hstor, ?_, ?_⟩
  · rcases hk with h | h | h <;> simp [get_storage_node, hd, h, hlen]
  · intro q dq h1 h2
    simp [get_storage_node, h1, h2]
  · intro h
    have hnil : dataAt t [] = some t.data := by
      rw [dataAt, subtreeAt_nil]
      rfl
    simp [get_storage_node, hnil, h]

/-- C3 witness: on the scenario-1 tree, the File at depth 3 resolves to
the Storage disk1 at depth 1, the Storage resolves to itself, and the
Top root resolves to absent. -/
theorem c3_owner_storage_witness :
    get_storage_node ex1 [0, 0, 0] = some (StorageResult.found [0])
    ∧ get_storage_node ex1 [0] = some (StorageResult.found [0])
    ∧ get_storage_node ex1 [] = some StorageResult.absent := by
  have h := c3_owner_storage ex1 [0, 0, 0] exAtxt exDisk1 rfl
    (Or.inl rfl) (by decide) rfl rfl
  exact ⟨h.1, h.2.2.2.1 [0] exDisk1 rfl rfl, h.2.2.2.2 rfl⟩

/-- C3 counterexample: the Meta node below the Storage disk1 has disk1
as Storage ancestor, yet get_storage_node returns absent on it, not that
ancestor, so the claim fails when quantified over every node below a
Storage. -/
theorem c3_meta_counterexample :
    dataAt exMetaTree [0] = some exDisk1
    ∧ exDisk1.ntype = NType.storage
    ∧ (dataAt exMetaTree [0, 0]).map NData.ntype = some NType.meta
    ∧ get_storage_node exMetaTree [0, 0] = some StorageResult.absent
    ∧ ¬ get_storage_node exMetaTree [0, 0]
        = some (StorageResult.found [0]) := by
  refine ⟨rfl, rfl, rfl, rfl, ?_⟩
  decide

/-- C8 amended: the positional lookup runs no invariant check and never
signals a structural violation: on a File, Dir or Archived node with at
least two ancestors it returns the node at depth 1 of the root chain
whatever that node's kind is, and on such a node with fewer than two
ancestors it fails with the IndexError of reading the ancestors tuple at
index 1. -/
theorem c8_positional_lookup (t : NTree) (p : List Nat) (d : NData)
    (hd : dataAt t p = some d)
    (hk : d.ntype = NType.file ∨ d.ntype = NType.dir ∨ d.ntype = NType.arc) :
    (2 ≤ p.length → get_storage_node t p = some (StorageResult.found (p.take 1)))
    ∧ (p.length < 2 → get_storage_node t p = some StorageResult.err) := by
  constructor <;> intro h
  · rcases hk with h2 | h2 | h2 <;> simp [get_storage_node, hd, h2, h]
  · rcases hk with h2 | h2 | h2 <;>
      simp [get_storage_node, hd, h2, Nat.not_le.mpr h]

/-- C8 witness: in the invariant-violating tree exNoStorage, the File at
depth 2 gets the Dir ancestor back and the Dir at depth 1 gets the
IndexError. -/
theorem c8_positional_lookup_witness :
    get_storage_node exNoStorage [0, 0] = some (StorageResult.found [0])
    ∧ get_storage_node exNoStorage [0] = some StorageResult.err := by
  have h1 := c8_positional_lookup exNoStorage [0, 0]
    ⟨"f", 3, NType.file, none⟩ rfl (Or.inl rfl)
  have h2 := c8_positional_lookup exNoStorage [0]
    ⟨"d", 0, NType.dir, none⟩ rfl (Or.inr (Or.inl rfl))
  exact ⟨h1.1 (by decide), h2.2 (by decide)⟩

/-- C8 counterexample: with the depth-1 storage invariant broken (a Dir
directly under Top), the lookup on the File below returns the Dir, a
non-Storage node, and the lookup on the depth-1 Dir indexes out of
range; no StructuralViolation is signalled anywhere. -/
theorem c8_counterexample :
    get_storage_node exNoStorage [0, 0] = some (StorageResult.found [0])
    ∧ (dataAt exNoStorage [0]).map NData.ntype = some NType.dir
    ∧ ¬ (dataAt exNoStorage [0]).map NData.ntype = some NType.storage
    ∧ get_storage_node exNoStorage [0] = some StorageResult.err := by
  refine ⟨rfl, rfl, ?_, rfl⟩
  decide

/-- C6: full paths under a Top root.  The full path of the Top root is
the empty string; the full path of any non-Top node equals the parent
full path joined with the own name (third part); and on a chain of
non-Top nodes with nonempty separator-free names the full path is
exactly the separator-joined list of the names from the Storage child of
Top (the depth-1 node of the chain) down to the node (second part). -/
theorem c6_fullpath (t : NTree) (p : List Nat) (td : NData) (ds : List NData)
    (hch : chainAt t p = some (td :: ds))
    (htd : td.ntype = NType.top)
    (hne : ds ≠ [])
    (hnt : ∀ d ∈ ds, d.ntype ≠ NType.top)
    (hsf : ∀ d ∈ ds, sepFree d.name) :
    fullpathAt t [] = some ""
    ∧ fullpathAt t p = some (sepJoin (ds.map NData.name))
    ∧ ∀ q i dq, dataAt t (q ++ [i]) = some dq → dq.ntype ≠ NType.top →
        fullpathAt t (q ++ [i])
          = (fullpathAt t q).map (fun s => osJoin s dq.name) := by
  have hroot : t.data = td := by
    have h := chainAt_head t p (td :: ds) hch
    simpa using h.symm
  refine ⟨?_, ?_, ?_⟩
  · rw [fullpathAt, chainAt_nil, Option.map_some']
    have : ([t.data] : List NData).reverse = [t.data] := rfl
    rw [this, hroot, get_fullpath_top td [] htd]
  · rw [fullpathAt, hch, Option.map_some']
    have hrev : (td :: ds).reverse = ds.reverse ++ [td] := by
      simp
    rw [hrev, get_fullpath_sepJoin ds.reverse td htd (by simpa using hne)
      (fun z hz => hnt z (List.mem_reverse.mp hz))
      (fun z hz => hsf z (List.mem_reverse.mp hz))]
    rw [List.reverse_reverse]
  · intro q i dq hdq hnq
    unfold dataAt at hdq
    cases hsub : subtreeAt t (q ++ [i]) with
    | none => rw [hsub] at hdq; exact absurd hdq (by simp)
    | some c =>
      rw [hsub, Option.map_some'] at hdq
      obtain rfl : c.data = dq := Option.some_injective _ hdq
      obtain ⟨l, hl1, hl2⟩ := chainAt_snoc t q i c hsub
      have hlne : l ≠ [] := chainAt_ne_nil t q l hl1
      rw [fullpathAt, hl2, Option.map_some', fullpathAt, hl1, Option.map_some']
      have hrev : (l ++ [c.data]).reverse = c.data :: l.reverse := by
        simp
      rw [hrev]
      cases hlr : l.reverse with
      | nil => exact absurd (by simpa using hlr) hlne
      | cons e es =>
        rw [get_fullpath_cons c.data e es hnq]
        rfl

/-- C6 witness: on the scenario-1 tree the file node full path evaluates
through the theorem to disk1/docs/a.txt, the separator-joined names from
the Storage child down to the file. -/
theorem c6_fullpath_witness :
    fullpathAt ex1 [0, 0, 0] = some "disk1/docs/a.txt" := by
  have h := (c6_fullpath ex1 [0, 0, 0] exTop [exDisk1, exDocs, exAtxt]
    rfl rfl (by decide) (by decide) (by decide)).2.1
  rw [h]
  rfl
